import Mathlib

/-!
Shallow embedding of the rule-based analysis pipeline (analyzer.py, report.py)
of the confidential-document-analyst repository, together with theorems
settling the frozen claims about it.

Texts are modelled as `List Char`.  Python regular expressions appearing in
the source are embedded as token lists interpreted by a small executable
matcher (`mtF`).  External collaborators (the store, the generator, the HTTP
layer) are out of scope; `add_finding` is modelled as the pure record
construction it performs (its store-generated `id`/`created_at` fields are
omitted, no verified claim mentions them).
-/

namespace SovereigntyShield

/-! ## Character classes (Python `\s`, `\w`, `str.strip`, `str.lower`) -/

/-- Python whitespace (`\s` in `re`, and the default `str.strip` set):
ASCII whitespace plus the common Unicode space code points. -/
def isPySpace (c : Char) : Bool :=
  c = ' ' || c = '\t' || c = '\n' || c = '\r' ||
  c = (Char.ofNat 0x0b) || c = (Char.ofNat 0x0c) ||
  c = (Char.ofNat 0x1c) || c = (Char.ofNat 0x1d) ||
  c = (Char.ofNat 0x1e) || c = (Char.ofNat 0x1f) ||
  c = (Char.ofNat 0x85) || c = (Char.ofNat 0xa0) ||
  c = (Char.ofNat 0x1680) ||
  (0x2000 ≤ c.toNat && c.toNat ≤ 0x200a) ||
  c = (Char.ofNat 0x2028) || c = (Char.ofNat 0x2029) ||
  c = (Char.ofNat 0x202f) || c = (Char.ofNat 0x205f) ||
  c = (Char.ofNat 0x3000)

/-- Python `\w` word character (restricted to the ASCII range of the model). -/
def isWordChar (c : Char) : Bool :=
  c.isAlphanum || c = '_'

/-- Terminal sentence punctuation used by the sentence splitter `[.!?]`. -/
def isTermPunct (c : Char) : Bool :=
  c = '.' || c = '!' || c = '?'

/-- Python `str.lower` (ASCII model). -/
def pyLower (cs : List Char) : List Char :=
  cs.map Char.toLower

/-- Python `str.strip()`. -/
def pyStrip (cs : List Char) : List Char :=
  ((cs.dropWhile isPySpace).reverse.dropWhile isPySpace).reverse

/-- Does `p` occur as a contiguous substring of the text? -/
def hasSubstr (p : List Char) : List Char → Bool
  | [] => p.isEmpty
  | c :: cs => p.isPrefixOf (c :: cs) || hasSubstr p cs

/-! ## Data model (models.py) -/

/-- `Severity`, the ordered enum low < medium < high < critical. -/
inductive Severity where
  | low | medium | high | critical
  deriving DecidableEq, Repr

/-- `FindingCategory`. -/
inductive FindingCategory where
  | threat | scam | abuse | pattern | timeline_event | communication
  deriving DecidableEq, Repr

/-- Position of a severity in `sev_order = [LOW, MEDIUM, HIGH, CRITICAL]`
(`sev_order.index` in `_process_response`). -/
def sevIdx : Severity → Nat
  | .low => 0
  | .medium => 1
  | .high => 2
  | .critical => 3

/-- A `Finding` record.  The store-generated `id` and `created_at` of the
Python model are produced by the external database layer and are omitted. -/
structure Finding where
  case_id : String
  file_id : String
  category : FindingCategory
  severity : Severity
  quote : List Char
  explanation : List Char
  source : String
  chunk_index : Nat
  deriving DecidableEq, Repr

/-! ## Risk aggregation (`_compute_risk_level`, analyzer.py lines 302-324) -/

/-- `_compute_risk_level`: overall case risk label from all findings. -/
def _compute_risk_level (findings : List Finding) : String :=
  if findings.isEmpty then "low"
  else
    let severities := findings.map (fun f => f.severity)
    if Severity.critical ∈ severities then "critical"
    else
      let high_count := severities.count Severity.high
      if high_count ≥ 2 then "critical"
      else if high_count ≥ 1 then "high"
      else
        let medium_count := severities.count Severity.medium
        if medium_count ≥ 3 then "high"
        else if medium_count ≥ 1 then "medium"
        else "low"

/-- The ordered decision table exactly as the specification words it:
first matching rule over the multiset of severities wins. -/
def riskLabelSpecTable (findings : List Finding) : String :=
  let severities := findings.map (fun f => f.severity)
  let c := severities.count Severity.critical
  let h := severities.count Severity.high
  let m := severities.count Severity.medium
  if findings.length = 0 then "low"
  else if 1 ≤ c then "critical"
  else if 2 ≤ h then "critical"
  else if 1 ≤ h then "high"
  else if 3 ≤ m then "high"
  else if 1 ≤ m then "medium"
  else "low"

/-- A placeholder finding carrying a given severity (used for the concrete
risk-cascade instances of the claims). -/
def mkSevFinding (s : Severity) : Finding :=
  { case_id := "c", file_id := "f", category := FindingCategory.communication,
    severity := s, quote := [], explanation := [], source := "local",
    chunk_index := 0 }

/-- Numeric rank of the textual risk labels, low < medium < high < critical. -/
def riskRank (label : String) : Nat :=
  if label = "critical" then 3
  else if label = "high" then 2
  else if label = "medium" then 1
  else 0

/-- C1 -- For every finite multiset of Findings, the case risk label equals the
first matching rule of the ordered decision table (no findings → low; any
CRITICAL → critical; ≥2 HIGH → critical; ≥1 HIGH → high; ≥3 MEDIUM → high;
≥1 MEDIUM → medium; else low); in particular [CRITICAL]→critical,
[HIGH,HIGH]→critical, [HIGH]→high, [MEDIUM,MEDIUM,MEDIUM]→high,
[MEDIUM]→medium, []→low. -/
theorem risk_level_matches_decision_table :
    (∀ findings : List Finding,
      _compute_risk_level findings = riskLabelSpecTable findings) ∧
    _compute_risk_level [mkSevFinding Severity.critical] = "critical" ∧
    _compute_risk_level
      [mkSevFinding Severity.high, mkSevFinding Severity.high] = "critical" ∧
    _compute_risk_level [mkSevFinding Severity.high] = "high" ∧
    _compute_risk_level
      [mkSevFinding Severity.medium, mkSevFinding Severity.medium,
        mkSevFinding Severity.medium] = "high" ∧
    _compute_risk_level [mkSevFinding Severity.medium] = "medium" ∧
    _compute_risk_level ([] : List Finding) = "low" := by
  refine ⟨?_, by decide, by decide, by decide, by decide, by decide, by decide⟩
  intro findings
  by_cases hfs : findings = []
  · subst hfs; simp [_compute_risk_level, riskLabelSpecTable]
  · have hne : findings.isEmpty = false := by
      simpa [List.isEmpty_iff] using hfs
    have hlen : findings.length ≠ 0 := by
      simpa [List.length_eq_zero] using hfs
    by_cases hcrit : Severity.critical ∈ findings.map (fun f => f.severity)
    · have hc1 : 1 ≤ (findings.map (fun f => f.severity)).count Severity.critical :=
        List.count_pos_iff.mpr hcrit
      simp [_compute_risk_level, riskLabelSpecTable, hne, hlen, hcrit, hc1]
    · have hc0 : (findings.map (fun f => f.severity)).count Severity.critical = 0 :=
        List.count_eq_zero.mpr hcrit
      simp [_compute_risk_level, riskLabelSpecTable, hne, hlen, hcrit, hc0]

theorem riskRank_count_eq (findings : List Finding) :
    riskRank (_compute_risk_level findings) =
      (if findings.isEmpty then 0
       else if 1 ≤ (findings.map (fun f => f.severity)).count Severity.critical then 3
       else if 2 ≤ (findings.map (fun f => f.severity)).count Severity.high then 3
       else if 1 ≤ (findings.map (fun f => f.severity)).count Severity.high then 2
       else if 3 ≤ (findings.map (fun f => f.severity)).count Severity.medium then 2
       else if 1 ≤ (findings.map (fun f => f.severity)).count Severity.medium then 1
       else 0) := by
  simp only [_compute_risk_level]
  by_cases hemp : findings.isEmpty
  · simp only [hemp, if_true]; decide
  · simp only [hemp, Bool.false_eq_true, if_false]
    by_cases h1 : Severity.critical ∈ findings.map (fun f => f.severity)
    · have hc1 : 1 ≤ (findings.map (fun f => f.severity)).count Severity.critical :=
        List.count_pos_iff.mpr h1
      simp only [h1, if_true, hc1]; decide
    · have hc0 : (findings.map (fun f => f.severity)).count Severity.critical = 0 :=
        List.count_eq_zero.mpr h1
      simp only [h1, if_false, hc0]
      split_ifs <;> first | decide | omega

/-- C7 -- The case risk label is monotone: adding any Finding to a case never
lowers the computed label under the order low < medium < high < critical. -/
theorem risk_level_monotone :
    ∀ (findings : List Finding) (f : Finding),
      riskRank (_compute_risk_level findings) ≤
        riskRank (_compute_risk_level (findings ++ [f])) := by
  intro findings f
  rw [riskRank_count_eq, riskRank_count_eq]
  have hmap : (findings ++ [f]).map (fun x => x.severity) =
      findings.map (fun x => x.severity) ++ [f.severity] := by simp
  have hne : (findings ++ [f]).isEmpty = false := by
    simp [List.isEmpty_iff]
  have hcc : (findings.map (fun x => x.severity)).count Severity.critical ≤
      ((findings ++ [f]).map (fun x => x.severity)).count Severity.critical := by
    rw [hmap, List.count_append]; exact Nat.le_add_right _ _
  have hh : (findings.map (fun x => x.severity)).count Severity.high ≤
      ((findings ++ [f]).map (fun x => x.severity)).count Severity.high := by
    rw [hmap, List.count_append]; exact Nat.le_add_right _ _
  have hm : (findings.map (fun x => x.severity)).count Severity.medium ≤
      ((findings ++ [f]).map (fun x => x.severity)).count Severity.medium := by
    rw [hmap, List.count_append]; exact Nat.le_add_right _ _
  simp only [hne, Bool.false_eq_true, if_false]
  by_cases hemp : findings.isEmpty
  · simp only [hemp, if_true]
    exact Nat.zero_le _
  · simp only [hemp, Bool.false_eq_true, if_false]
    split_ifs <;> omega

/-! ## Chunker (`_chunk_messages`, analyzer.py lines 14-28)

Messages are chunked into overlapping windows: `for i in range(0, len, step):
chunk = messages[i:i+CHUNK_SIZE]`, keeping non-empty chunks. -/

def CHUNK_SIZE : Nat := 6
def CHUNK_OVERLAP : Nat := 1

/-- The iteration step `max(1, CHUNK_SIZE - CHUNK_OVERLAP)`. -/
def chunkStep : Nat := max 1 (CHUNK_SIZE - CHUNK_OVERLAP)

/-- The index sequence `range(0, n, step)` of Python. -/
def chunkIndices (n : Nat) : List Nat :=
  (List.range ((n + chunkStep - 1) / chunkStep)).map (fun k => chunkStep * k)

/-- `_chunk_messages`: split messages into overlapping windows. -/
def _chunk_messages {α : Type} (messages : List α) : List (List α) :=
  if messages.isEmpty then []
  else
    ((chunkIndices messages.length).map
        (fun i => (messages.drop i).take CHUNK_SIZE)).filter
      (fun chunk => !chunk.isEmpty)

theorem chunkStep_eq : chunkStep = 5 := rfl

theorem chunkIndices_mem_lt {n i : Nat} (h : i ∈ chunkIndices n) : i < n := by
  simp only [chunkIndices, chunkStep_eq, List.mem_map, List.mem_range] at h
  obtain ⟨k, hk, rfl⟩ := h
  omega

/-- C3 counterexample -- with exactly 6 messages the chunker emits TWO windows
(`range(0,6,5) = [0,5]`, and `messages[5:11]` is non-empty), not the single
full window the claim asserts for every N ≤ 6. -/
theorem chunking_six_messages_two_windows :
    _chunk_messages (List.range 6) = [[0, 1, 2, 3, 4, 5], [5]] ∧
    _chunk_messages (List.range 6) ≠ [List.range 6] := by
  constructor
  · decide
  · decide

/-- C3 (amended) -- chunking emits the windows `[i:i+6]` for
i = 0, 5, 10, …; every message index is covered by some window with no gaps;
empty input yields empty output; N ≤ 5 yields exactly one full window; N = 6
yields the full window followed by a one-message window; and whenever two
consecutive windows exist the earlier one's tail beyond position 5 is exactly
the first (single) message of the next window. -/
theorem chunking_amended {α : Type} (msgs : List α) :
    (msgs = [] → _chunk_messages msgs = []) ∧
    (msgs ≠ [] → _chunk_messages msgs =
        (chunkIndices msgs.length).map (fun i => (msgs.drop i).take 6)) ∧
    (∀ j, j < msgs.length →
      ∃ i, i ∈ chunkIndices msgs.length ∧ i ≤ j ∧ j < i + 6) ∧
    (msgs ≠ [] → msgs.length ≤ 5 → _chunk_messages msgs = [msgs]) ∧
    (msgs.length = 6 → _chunk_messages msgs = [msgs, msgs.drop 5]) ∧
    (∀ k, 5 * k + 5 < msgs.length →
      ((msgs.drop (5 * k)).take 6).drop 5 =
        ((msgs.drop (5 * k + 5)).take 6).take 1 ∧
      (((msgs.drop (5 * k)).take 6).drop 5).length = 1) := by
  have hfilter : ∀ h : msgs ≠ [], _chunk_messages msgs =
      (chunkIndices msgs.length).map (fun i => (msgs.drop i).take 6) := by
    intro h
    have hne : msgs.isEmpty = false := by simpa [List.isEmpty_iff] using h
    unfold _chunk_messages
    rw [hne]
    simp only [Bool.false_eq_true, if_false]
    rw [List.filter_eq_self.mpr]
    · rfl
    · intro c hc
      simp only [List.mem_map] at hc
      obtain ⟨i, hi, rfl⟩ := hc
      have hlt : i < msgs.length := chunkIndices_mem_lt hi
      cases hdt : (msgs.drop i).take CHUNK_SIZE with
      | nil =>
        exfalso
        have := congrArg List.length hdt
        simp only [List.length_take, List.length_drop, List.length_nil,
          CHUNK_SIZE] at this
        omega
      | cons a t => rfl
  refine ⟨?_, hfilter, ?_, ?_, ?_, ?_⟩
  · intro h; subst h; rfl
  · intro j hj
    refine ⟨5 * (j / 5), ?_, by omega, by omega⟩
    simp only [chunkIndices, chunkStep_eq, List.mem_map, List.mem_range]
    exact ⟨j / 5, by omega, rfl⟩
  · intro h hle
    rw [hfilter h]
    have h1 : (msgs.length + 5 - 1) / 5 = 1 := by
      have : msgs.length ≠ 0 := by simpa [List.length_eq_zero] using h
      omega
    simp only [chunkIndices, chunkStep_eq, h1]
    have hr1 : List.range 1 = [0] := by decide
    simp only [hr1, List.map_cons, List.map_nil, Nat.mul_zero, List.drop_zero]
    rw [List.take_of_length_le (by omega)]
  · intro h6
    have hne : msgs ≠ [] := by
      intro h; subst h; simp at h6
    rw [hfilter hne]
    have h2 : (msgs.length + 5 - 1) / 5 = 2 := by omega
    simp only [chunkIndices, chunkStep_eq, h2]
    have : List.range 2 = [0, 1] := by decide
    simp only [this, List.map_cons, List.map_nil, Nat.mul_zero, Nat.mul_one,
      List.drop_zero]
    rw [List.take_of_length_le (by omega),
      List.take_of_length_le (by simp; omega)]
  · intro k hk
    constructor
    · rw [List.drop_take, List.take_take]
      simp [List.drop_drop]
    · rw [List.drop_take]
      simp only [List.length_take, List.length_drop]
      omega

theorem chunking_amended_witness :
    _chunk_messages ([] : List Nat) = [] ∧
    _chunk_messages [10, 20, 30] = [[10, 20, 30]] ∧
    _chunk_messages (List.range 6) = [List.range 6, (List.range 6).drop 5] ∧
    _chunk_messages (List.range 7) =
      (chunkIndices 7).map (fun i => ((List.range 7).drop i).take 6) ∧
    (∃ i, i ∈ chunkIndices 7 ∧ i ≤ 6 ∧ 6 < i + 6) ∧
    (((List.range 11).drop 0).take 6).drop 5 =
      (((List.range 11).drop 5).take 6).take 1 := by
  refine ⟨(chunking_amended ([] : List Nat)).1 rfl,
    (chunking_amended [10, 20, 30]).2.2.2.1 (by decide) (by decide),
    (chunking_amended (List.range 6)).2.2.2.2.1 (by decide), ?_, ?_, ?_⟩
  · have h := (chunking_amended (List.range 7)).2.1 (by decide)
    simpa using h
  · have h := (chunking_amended (List.range 7)).2.2.1 6 (by decide)
    simpa using h
  · exact ((chunking_amended (List.range 11)).2.2.2.2.2 0 (by decide)).1

/-! ## Regular-expression patterns

The keyword patterns of analyzer.py / report.py use only a small regex
fragment: literals, `\b`, `.`, `.*`, `\s+`, `\w*`, an optional character
(`'?`, `s?`) and literal alternation.  They are embedded as token lists and
interpreted by a fueled backtracking matcher.  Only match existence matters:
every use in the source is `p.search(text)` in boolean position. -/

inductive RTok where
  | bnd                             -- `\b`
  | lit (s : List Char)             -- literal text
  | anyc                            -- `.`  (any char except newline)
  | anyStar                         -- `.*`
  | wsPlus                          -- `\s+`
  | wordStar                        -- `\w*`
  | optc (c : Char)                 -- `c?`
  | altLit (ss : List (List Char))  -- `(?:a|b|c)`
  deriving DecidableEq, Repr

/-- The word-character status of the last character of `s` (falling back to
the incoming status `pw` when `s` is empty); used to thread the previous
character across a consumed literal for `\b`. -/
def lastIsWord (s : List Char) (pw : Bool) : Bool :=
  match s.getLast? with
  | some c => isWordChar c
  | none => pw

/-- Fueled matcher: does the token list match a prefix of `cs`, where `pw`
says whether the character just before `cs` is a word character?  Every
recursive call shrinks `toks.length + cs.length`, so fuel
`toks.length + cs.length + 1` is always sufficient. -/
def mtF : Nat → List RTok → List Char → Bool → Bool
  | 0, _, _, _ => false
  | _ + 1, [], _, _ => true
  | n + 1, t :: ts, cs, pw =>
    match t with
    | .bnd =>
      let nextW := match cs with | [] => false | c :: _ => isWordChar c
      if pw ≠ nextW then mtF n ts cs pw else false
    | .lit s =>
      if s.isPrefixOf cs then mtF n ts (cs.drop s.length) (lastIsWord s pw)
      else false
    | .anyc =>
      match cs with
      | [] => false
      | c :: cs' => if c ≠ '\n' then mtF n ts cs' (isWordChar c) else false
    | .anyStar =>
      mtF n ts cs pw ||
        (match cs with
         | [] => false
         | c :: cs' =>
           if c ≠ '\n' then mtF n (.anyStar :: ts) cs' (isWordChar c)
           else false)
    | .wsPlus =>
      (match cs with
       | [] => false
       | c :: cs' =>
         if isPySpace c then
           mtF n ts cs' (isWordChar c) || mtF n (.wsPlus :: ts) cs' (isWordChar c)
         else false)
    | .wordStar =>
      mtF n ts cs pw ||
        (match cs with
         | [] => false
         | c :: cs' =>
           if isWordChar c then mtF n (.wordStar :: ts) cs' true else false)
    | .optc c =>
      mtF n ts cs pw ||
        (match cs with
         | [] => false
         | c' :: cs' => if c' = c then mtF n ts cs' (isWordChar c) else false)
    | .altLit ss =>
      ss.any (fun s =>
        s.isPrefixOf cs && mtF n ts (cs.drop s.length) (lastIsWord s pw))

/-- Try to match starting anywhere in `cs` (Python `re.search`). -/
def rsearchGo (toks : List RTok) : List Char → Bool → Bool
  | cs, pw =>
    mtF (toks.length + cs.length + 1) toks cs pw ||
      (match cs with
       | [] => false
       | c :: cs' => rsearchGo toks cs' (isWordChar c))

def rsearch (toks : List RTok) (cs : List Char) : Bool :=
  rsearchGo toks cs false

/-- Apostrophe character (appears inside several keyword patterns). -/
def apos : Char := Char.ofNat 39

def litP (s : String) : RTok := .lit s.data

/-- `\b` followed by a literal. -/
def bw (s : String) : List RTok := [.bnd, litP s]

/-- `\b`, a literal, then `\b`. -/
def bwb (s : String) : List RTok := [.bnd, litP s, .bnd]

/-! ## Keyword tables (analyzer.py lines 52-102) -/

def _CATEGORY_KEYWORDS : List (FindingCategory × List (List RTok)) := [
  (FindingCategory.threat, [
    bw ("threat"), bw ("violence"), bw ("intimid"), bwb ("harm"),
    bwb ("kill"), bwb ("hurt"), bwb ("attack"), bwb ("danger"),
    bw ("blackmail"), bwb ("coerce"), bw ("extort")]),
  (FindingCategory.scam, [
    bw ("scam"), bw ("fraud"), bw ("phish"), bwb ("money"),
    bwb ("investment"), bwb ("wire"),
    [.bnd, litP ("advance"), .anyc, litP ("fee")],
    bw ("decepti"), bw ("ponzi"),
    [.bnd, litP ("financial"), .wsPlus,
      .altLit [("harm").data, ("loss").data, ("exploit").data]]]),
  (FindingCategory.abuse, [
    bw ("abuse"), [.bnd, litP ("control"), .wordStar, .bnd],
    bw ("isolat"), bw ("domestic"), bw ("coercive"), bw ("manipulat"),
    bw ("gaslight"), bw ("exploit"), bwb ("duress"),
    [.bnd, litP ("power"), .wsPlus, litP ("imbalance")]]),
  (FindingCategory.pattern, [
    bw ("pattern"), bw ("escalat"), bw ("repeat"), bw ("cycle"),
    bw ("behavior"), bwb ("dynamic"), bw ("recurring")])]

def _SEVERITY_HIGH_KEYWORDS : List (List RTok) := [
  bw ("critical"), bwb ("severe"), bwb ("danger"), bw ("imminent"),
  bwb ("kill"), bwb ("hurt"), bw ("violence"), bw ("extort"),
  bw ("blackmail"), bw ("immedi"), bw ("criminal")]

def _SEVERITY_LOW_KEYWORDS : List (List RTok) := [
  bwb ("minor"), bwb ("mild"), bwb ("normal"), bw ("no concern")]

def _CONCERNING_MSG_KEYWORDS : List (List RTok) := [
  bwb ("kill"), bwb ("hurt"), bwb ("debt"), bwb ("owe"),
  [.bnd, litP ("can"), .optc apos, litP ("t leave")],
  [.bnd, litP ("delete"), .bnd, .anyStar, .bnd, litP ("chat"), .bnd],
  bwb ("passport"), bw ("threat"), bwb ("family"), bwb ("police"),
  [.bnd, litP ("photo"), .optc 's', .bnd],
  bwb ("private"),
  [.bnd, litP ("associate"), .optc 's', .bnd],
  [.bnd, litP ("don"), .optc apos, litP ("t tell"), .bnd],
  bwb ("trust me"), bwb ("only one"), bwb ("sabotage"),
  [.bnd, litP ("pay"), .bnd, .anyStar, .bnd, litP ("back"), .bnd],
  bwb ("cooperate"), bwb ("wire"), bwb ("invest"), bwb ("confidential"),
  bwb ("urgent"), bwb ("money"),
  [.bnd, litP ("send"), .bnd, .anyStar, .bnd, litP ("fund")],
  bwb ("control")]

/-! ## Classifier (`_classify_by_keywords`, analyzer.py lines 112-127) -/

/-- The category loop: first category whose pattern set has any match wins;
no match at all leaves the default COMMUNICATION. -/
def findFirstCat : List (FindingCategory × List (List RTok)) → List Char →
    FindingCategory
  | [], _ => FindingCategory.communication
  | (cat, pats) :: rest, t =>
    if pats.any (fun p => rsearch p t) then cat else findFirstCat rest t

/-- `_classify_by_keywords`: classify text by keyword matching (the text is
lower-cased first, `t = text.lower()`). -/
def _classify_by_keywords (text : List Char) : FindingCategory × Severity :=
  let t := pyLower text
  let category := findFirstCat _CATEGORY_KEYWORDS t
  let severity :=
    if _SEVERITY_HIGH_KEYWORDS.any (fun p => rsearch p t) then Severity.high
    else if _SEVERITY_LOW_KEYWORDS.any (fun p => rsearch p t) then Severity.low
    else Severity.medium
  (category, severity)

/-! ## Normalized messages and quote selection -/

/-- `NormalizedMessage` (models.py). -/
structure NormalizedMessage where
  sender : List Char
  text : List Char
  timestamp : List Char
  source_file : List Char
  line_number : Nat
  deriving DecidableEq, Repr

/-- Number of concerning-keyword patterns matching a message text
(`re.IGNORECASE` is modelled by lower-casing the text; the patterns are
already lower-case). -/
def concerningScore (text : List Char) : Int :=
  ((_CONCERNING_MSG_KEYWORDS.filter
      (fun p => rsearch p (pyLower text))).length : Int)

/-- The scan loop of `_select_concerning_quote`: keep the first message with
a strictly larger score. -/
def bestQuoteLoop : List NormalizedMessage → List Char × Int → List Char × Int
  | [], acc => acc
  | m :: rest, (bm, bs) =>
    let score := concerningScore m.text
    if score > bs then bestQuoteLoop rest (m.text, score)
    else bestQuoteLoop rest (bm, bs)

/-- First message whose stripped text is non-empty. -/
def firstNonBlank : List NormalizedMessage → Option (List Char)
  | [] => none
  | m :: rest =>
    if !(pyStrip m.text).isEmpty then some m.text else firstNonBlank rest

/-- `_select_concerning_quote` (analyzer.py lines 130-146). -/
def _select_concerning_quote (chunk : List NormalizedMessage) : List Char :=
  let best := bestQuoteLoop chunk ([], -1)
  if best.2 ≤ 0 then
    match firstNonBlank chunk with
    | some t => t.take 300
    | none => best.1.take 300
  else best.1.take 300

/-! ## Response cleaning (`_strip_thinking`, `_clean_response`,
analyzer.py lines 105-184) -/

def thinkOpen : List Char := ("<think>").data
def thinkClose : List Char := ("</think>").data

/-- Search for the first `</think>` and return the text after it
(the non-greedy `.*?` of `<think>.*?</think>`). -/
def dropThroughClose : List Char → Option (List Char)
  | [] => none
  | c :: cs =>
    if thinkClose.isPrefixOf (c :: cs) then some ((c :: cs).drop 8)
    else dropThroughClose cs

/-- `re.sub(r"<think>.*?</think>", "", text, DOTALL)`, fueled: each step
consumes at least one character, so fuel `cs.length` always suffices; on
exhausted fuel the remaining text is returned unchanged. -/
def sub1F : Nat → List Char → List Char
  | 0, cs => cs
  | n + 1, cs =>
    match cs with
    | [] => []
    | c :: rest =>
      if thinkOpen.isPrefixOf (c :: rest) then
        match dropThroughClose ((c :: rest).drop 7) with
        | some rest' => sub1F n rest'
        | none => c :: rest
      else c :: sub1F n rest

def removeThinkPairs (cs : List Char) : List Char := sub1F cs.length cs

/-- `re.sub(r"<think>.*", "", text, DOTALL)`: truncate at an unterminated
opening marker. -/
def truncAtThink : List Char → List Char
  | [] => []
  | c :: rest =>
    if thinkOpen.isPrefixOf (c :: rest) then [] else c :: truncAtThink rest

/-- `_strip_thinking`: remove paired reasoning blocks, truncate an
unterminated one, then `strip()`. -/
def _strip_thinking (text : List Char) : List Char :=
  pyStrip (truncAtThink (removeThinkPairs text))

/-- Length of the run of characters satisfying `p` at the head. -/
def countLeading (p : Char → Bool) : List Char → Nat
  | [] => 0
  | c :: rest => if p c then countLeading p rest + 1 else 0

/-- `re.sub(r"^#{1,4}\s+.*$", "", text, MULTILINE)`, fueled scan with a
beginning-of-line flag.  A match at a line start removes the 1-4 `#`, the
(possibly newline-crossing) greedy whitespace run, and the rest of that
line up to (excluding) the next newline. -/
def headerSubF : Nat → Bool → List Char → List Char
  | 0, _, cs => cs
  | n + 1, bol, cs =>
    match cs with
    | [] => []
    | c :: rest =>
      let hashes := countLeading (fun x => x = '#') (c :: rest)
      let afterHash := (c :: rest).drop hashes
      let wsOk := match afterHash with | [] => false | d :: _ => isPySpace d
      if bol && decide (1 ≤ hashes) && decide (hashes ≤ 4) && wsOk then
        let afterWs := afterHash.dropWhile isPySpace
        let afterLine := afterWs.dropWhile (fun x => x ≠ '\n')
        headerSubF n false afterLine
      else
        c :: headerSubF n (c = '\n') rest

def headerSub (cs : List Char) : List Char := headerSubF cs.length true cs

/-- The emoji code-point ranges of the removal character class. -/
def isEmojiChar (c : Char) : Bool :=
  (0x1F300 ≤ c.toNat && c.toNat ≤ 0x1F9FF) ||
  (0x2600 ≤ c.toNat && c.toNat ≤ 0x27BF) ||
  (0xFE00 ≤ c.toNat && c.toNat ≤ 0xFE0F) ||
  (0x1FA00 ≤ c.toNat && c.toNat ≤ 0x1FA6F) ||
  (0x1FA70 ≤ c.toNat && c.toNat ≤ 0x1FAFF)

def emojiSub (cs : List Char) : List Char :=
  cs.filter (fun c => !(isEmojiChar c))

/-- `re.sub(r"\*{1,3}([^*]+)\*{1,3}", r"\1", text)`, fueled scan.  At a star
run of length `r`, a match needs a non-empty star-free body followed by at
least one closing star: the final `min r 3` opening stars and `min r2 3`
closing stars are consumed, the body is kept, scanning resumes after the
consumed closing stars. -/
def boldSubF : Nat → List Char → List Char
  | 0, cs => cs
  | _ + 1, [] => []
  | n + 1, c :: rest =>
    if c = '*' then
      let r := countLeading (fun x => x = '*') (c :: rest)
      let after := (c :: rest).drop r
      let body := after.takeWhile (fun x => x ≠ '*')
      let afterBody := after.drop body.length
      if body.isEmpty then c :: rest
      else
        match afterBody with
        | [] => c :: rest
        | _ :: _ =>
          let r2 := countLeading (fun x => x = '*') afterBody
          List.replicate (r - min r 3) '*' ++ body ++
            boldSubF n (afterBody.drop (min r2 3))
    else c :: boldSubF n rest

def boldSub (cs : List Char) : List Char := boldSubF cs.length cs

/-- A horizontal-rule line (`^-{3,}$`) has its content removed. -/
def emitHrLine (lineRev : List Char) : List Char :=
  if !lineRev.isEmpty && lineRev.all (fun x => x = '-') && 3 ≤ lineRev.length
  then [] else lineRev.reverse

/-- `re.sub(r"^-{3,}$", "", text, MULTILINE)`: line-wise scan accumulating
the current line reversed. -/
def hrSubGo (lineRev : List Char) : List Char → List Char
  | [] => emitHrLine lineRev
  | c :: rest =>
    if c = '\n' then emitHrLine lineRev ++ '\n' :: hrSubGo [] rest
    else hrSubGo (c :: lineRev) rest

def hrSub (cs : List Char) : List Char := hrSubGo [] cs

/-- A run of `k` newlines is replaced by one space when `k ≥ 2`. -/
def emitNlRun (k : Nat) : List Char :=
  if 2 ≤ k then [' '] else List.replicate k '\n'

/-- `re.sub(r"\n{2,}", " ", text)`: `some k` means a run of `k` newlines is
pending. -/
def nlCollapseGo : Option Nat → List Char → List Char
  | mode, [] => (match mode with | none => [] | some k => emitNlRun k)
  | mode, c :: rest =>
    match mode with
    | none =>
      if c = '\n' then nlCollapseGo (some 1) rest
      else c :: nlCollapseGo none rest
    | some k =>
      if c = '\n' then nlCollapseGo (some (k + 1)) rest
      else emitNlRun k ++ c :: nlCollapseGo none rest

def nlCollapse (cs : List Char) : List Char := nlCollapseGo none cs

/-- A pending whitespace run (reversed); runs of length ≥ 2 become one
space, a single whitespace character is kept as-is. -/
def emitWsRun (runRev : List Char) : List Char :=
  if 2 ≤ runRev.length then [' '] else runRev.reverse

/-- `re.sub(r"\s{2,}", " ", text)`. -/
def wsCollapseGo : Option (List Char) → List Char → List Char
  | mode, [] => (match mode with | none => [] | some r => emitWsRun r)
  | mode, c :: rest =>
    match mode with
    | none =>
      if isPySpace c then wsCollapseGo (some [c]) rest
      else c :: wsCollapseGo none rest
    | some r =>
      if isPySpace c then wsCollapseGo (some (c :: r)) rest
      else emitWsRun r ++ c :: wsCollapseGo none rest

def wsCollapse (cs : List Char) : List Char := wsCollapseGo none cs

/-- `re.split(r"(?<=[.!?])\s+", text)`, fueled: a whitespace character whose
predecessor is terminal punctuation ends the current sentence unit and the
whole (greedy) whitespace run is consumed. -/
def splitSentF : Nat → Bool → List Char → List Char → List (List Char)
  | 0, _, accRev, cs => [accRev.reverse ++ cs]
  | n + 1, prevTerm, accRev, cs =>
    match cs with
    | [] => [accRev.reverse]
    | c :: rest =>
      if isPySpace c && prevTerm then
        accRev.reverse :: splitSentF n false [] (rest.dropWhile isPySpace)
      else splitSentF n (isTermPunct c) (c :: accRev) rest

def splitSentences (cs : List Char) : List (List Char) :=
  splitSentF (cs.length + 1) false [] cs

/-- The repetition key of a sentence: `s.strip().lower()[:60]`. -/
def sentKey (s : List Char) : List Char :=
  (pyLower (pyStrip s)).take 60

def lookupCount : List (List Char × Nat) → List Char → Nat
  | [], _ => 0
  | (k', v) :: rest, k => if k' = k then v else lookupCount rest k

def setCount : List (List Char × Nat) → List Char → Nat → List (List Char × Nat)
  | [], k, v => [(k, v)]
  | (k', v') :: rest, k, v =>
    if k' = k then (k, v) :: rest else (k', v') :: setCount rest k v

/-- The degeneration guard of `_clean_response`: count each sentence's
60-character lower-cased prefix; skip sentences with an empty key; stop
(break) as soon as any key reaches its 3rd occurrence. -/
def degenGuard : List (List Char) → List (List Char × Nat) → List (List Char)
  | [], _ => []
  | s :: rest, seen =>
    let key := sentKey s
    if key.isEmpty then degenGuard rest seen
    else
      let n := lookupCount seen key + 1
      if 3 ≤ n then []
      else s :: degenGuard rest (setCount seen key n)

/-- `_clean_response` (analyzer.py lines 149-184). -/
def _clean_response (text : List Char) : List Char :=
  let t := _strip_thinking text
  if t.isEmpty then []
  else
    let sentences := splitSentences (wsCollapse (nlCollapse (hrSub
      (boldSub (emojiSub (headerSub t))))))
    let clean := degenGuard sentences []
    (pyStrip (List.intercalate [' '] clean)).take 500

/-! ## Finding assembly (`_process_response`, analyzer.py lines 187-235) -/

def noConcernPats : List (List RTok) := [
  [litP ("no"), .wsPlus, litP ("concern")],
  [litP ("nothing"), .wsPlus, litP ("wrong")],
  [litP ("normal"), .wsPlus, litP ("conversation")],
  [litP ("no"), .wsPlus, litP ("red"), .wsPlus, litP ("flag")],
  [litP ("no"), .wsPlus, litP ("issue")]]

/-- `_process_response`: convert a generator response into findings.  The
store call `add_finding` is modelled as the pure `Finding` construction it
returns. -/
def _process_response (response_text : List Char) (case_id file_id : String)
    (source : String) (chunk_index : Nat) (chunk : List NormalizedMessage) :
    List Finding :=
  if (pyStrip response_text).isEmpty then []
  else
    let explanation := _clean_response response_text
    if explanation.isEmpty || explanation.length < 20 then []
    else if noConcernPats.any (fun p => rsearch p (pyLower explanation)) then []
    else
      let cm := _classify_by_keywords explanation
      let conv_text := List.intercalate [' '] (chunk.map (fun m => m.text))
      let cc := _classify_by_keywords conv_text
      let category :=
        if cm.1 ≠ FindingCategory.communication then cm.1 else cc.1
      let severity := if sevIdx cc.2 > sevIdx cm.2 then cc.2 else cm.2
      let quote := _select_concerning_quote chunk
      [{ case_id := case_id, file_id := file_id, category := category,
         severity := severity, quote := quote, explanation := explanation,
         source := source, chunk_index := chunk_index }]

/-! ## C5: the degeneration guard bounds repetitions -/

theorem lookupCount_setCount_self (seen : List (List Char × Nat))
    (k : List Char) (v : Nat) : lookupCount (setCount seen k v) k = v := by
  induction seen with
  | nil => simp [setCount, lookupCount]
  | cons p rest ih =>
    obtain ⟨k', v'⟩ := p
    by_cases h : k' = k
    · simp [setCount, lookupCount, h]
    · simp [setCount, lookupCount, h, ih]

theorem lookupCount_setCount_ne (seen : List (List Char × Nat))
    (k k' : List Char) (v : Nat) (h : k' ≠ k) :
    lookupCount (setCount seen k v) k' = lookupCount seen k' := by
  induction seen with
  | nil => simp [setCount, lookupCount, Ne.symm h]
  | cons p rest ih =>
    obtain ⟨k'', v''⟩ := p
    by_cases h2 : k'' = k
    · subst h2
      simp [setCount, lookupCount, Ne.symm h]
    · by_cases h3 : k'' = k'
      · simp [setCount, lookupCount, h2, h3, h]
      · simp [setCount, lookupCount, h2, h3, ih]

theorem degenGuard_count_invariant (l : List (List Char))
    (seen : List (List Char × Nat)) (s : List Char) :
    (degenGuard l seen).count s + min 2 (lookupCount seen (sentKey s)) ≤ 2 := by
  induction l generalizing seen with
  | nil =>
    simp only [degenGuard, List.count_nil, Nat.zero_add]
    omega
  | cons t rest ih =>
    simp only [degenGuard]
    by_cases hkey : (sentKey t).isEmpty
    · simp only [hkey, if_true]
      exact ih seen
    · simp only [hkey, Bool.false_eq_true, if_false]
      by_cases hbrk : 3 ≤ lookupCount seen (sentKey t) + 1
      · simp only [if_pos hbrk, List.count_nil]
        omega
      · simp only [if_neg hbrk]
        by_cases hks : sentKey s = sentKey t
        · have hself : lookupCount
              (setCount seen (sentKey t) (lookupCount seen (sentKey t) + 1))
              (sentKey s) = lookupCount seen (sentKey t) + 1 := by
            rw [hks]; exact lookupCount_setCount_self _ _ _
          have ihx := ih (setCount seen (sentKey t) (lookupCount seen (sentKey t) + 1))
          rw [hself] at ihx
          by_cases hts : t = s
          · subst hts
            rw [List.count_cons_self, hks]
            omega
          · rw [List.count_cons_of_ne (fun hh => hts hh.symm), hks]
            omega
        · have hne : lookupCount
              (setCount seen (sentKey t) (lookupCount seen (sentKey t) + 1))
              (sentKey s) = lookupCount seen (sentKey s) :=
            lookupCount_setCount_ne _ _ _ _ hks
          have ihx := ih (setCount seen (sentKey t) (lookupCount seen (sentKey t) + 1))
          rw [hne] at ihx
          have hts : t ≠ s := by
            intro hh; subst hh; exact hks rfl
          rw [List.count_cons_of_ne (fun hh => hts hh.symm)]
          omega

/-- C5 -- The degeneration guard of the cleaning function keeps a count per
60-character lower-cased sentence prefix and stops appending once any key
reaches its 3rd occurrence, so every sentence occurs at most twice in the
kept list; in particular a sentence repeated 5 times collapses to exactly 2
occurrences, and the cleaned text of such a degenerate response keeps only
2 copies. -/
theorem degeneration_guard_caps_repetitions :
    (∀ (sentences : List (List Char)) (s : List Char),
      (degenGuard sentences []).count s ≤ 2) ∧
    degenGuard (List.replicate 5 (("Same sentence.").data)) [] =
      List.replicate 2 (("Same sentence.").data) ∧
    _clean_response (("Ab. Ab. Ab. Ab. Ab.").data) = ("Ab. Ab.").data := by
  refine ⟨?_, by decide, by decide⟩
  intro sentences s
  have h := degenGuard_count_invariant sentences [] s
  simp only [lookupCount] at h
  omega

/-! ## C6: each chunk yields zero or one Finding, by the ordered gate -/

/-- C6 -- Processing a chunk's raw response yields zero Findings exactly when
the response is empty/whitespace, or the cleaned text is empty or shorter
than 20 characters, or the cleaned text matches the explicit no-concern
phrasing; in every other case exactly one Finding is produced — never more
than one, and no generator output aborts the case (the function is total). -/
theorem process_response_zero_or_one :
    ∀ (response_text : List Char) (case_id file_id source : String)
      (chunk_index : Nat) (chunk : List NormalizedMessage),
      (_process_response response_text case_id file_id source chunk_index chunk
          = [] ↔
        ((pyStrip response_text).isEmpty = true ∨
         _clean_response response_text = [] ∨
         (_clean_response response_text).length < 20 ∨
         noConcernPats.any
           (fun p => rsearch p (pyLower (_clean_response response_text)))
             = true)) ∧
      (_process_response response_text case_id file_id source chunk_index
          chunk).length =
        (if (pyStrip response_text).isEmpty = true ∨
            _clean_response response_text = [] ∨
            (_clean_response response_text).length < 20 ∨
            noConcernPats.any
              (fun p => rsearch p (pyLower (_clean_response response_text)))
                = true
         then 0 else 1) := by
  intro resp cid fid src ci chunk
  simp only [_process_response]
  by_cases h1 : (pyStrip resp).isEmpty
  · simp [h1]
  · simp only [h1, Bool.false_eq_true, if_false]
    by_cases h2 : ((_clean_response resp).isEmpty
        || decide ((_clean_response resp).length < 20)) = true
    · have h2' : _clean_response resp = [] ∨
          (_clean_response resp).length < 20 := by
        simpa [List.isEmpty_iff] using h2
      simp only [h2, if_true]
      refine ⟨by simp; tauto, ?_⟩
      rw [if_pos (by tauto)]
      rfl
    · have h2' : ¬(_clean_response resp = [] ∨
          (_clean_response resp).length < 20) := by
        simpa [List.isEmpty_iff] using h2
      simp only [h2, Bool.false_eq_true, if_false]
      by_cases h3 : noConcernPats.any
          (fun p => rsearch p (pyLower (_clean_response resp))) = true
      · simp only [h3, if_true]
        refine ⟨by simp, ?_⟩
        rw [if_pos (by tauto)]
        rfl
      · simp only [h3, Bool.false_eq_true, if_false]
        have hA : ¬ _clean_response resp = [] := fun h => h2' (Or.inl h)
        have hB : ¬ (_clean_response resp).length < 20 :=
          fun h => h2' (Or.inr h)
        have hdisj : ¬(False ∨ _clean_response resp = [] ∨
            (_clean_response resp).length < 20 ∨ False) := by
          tauto
        refine ⟨?_, ?_⟩
        · simp only [List.cons_ne_nil, false_iff]
          exact hdisj
        · rw [if_neg hdisj]
          rfl

/-! ## C2: combined classification of a Finding -/

/-- C2 -- For every finding produced from a chunk, the category is the
model-derived one unless that is the default COMMUNICATION (then the
conversation-derived one), the severity is the maximum of the two severities
under LOW < MEDIUM < HIGH < CRITICAL, and the keyword classifier itself
never outputs CRITICAL for any text. -/
theorem finding_classification_combination :
    (∀ (response_text : List Char) (case_id file_id source : String)
       (chunk_index : Nat) (chunk : List NormalizedMessage)
       (f : Finding),
       f ∈ _process_response response_text case_id file_id source
             chunk_index chunk →
       (f.category =
          (if (_classify_by_keywords (_clean_response response_text)).1 ≠
              FindingCategory.communication
           then (_classify_by_keywords (_clean_response response_text)).1
           else (_classify_by_keywords
             (List.intercalate [' '] (chunk.map (fun m => m.text)))).1) ∧
        sevIdx f.severity =
          max (sevIdx (_classify_by_keywords (_clean_response response_text)).2)
            (sevIdx (_classify_by_keywords
              (List.intercalate [' '] (chunk.map (fun m => m.text)))).2))) ∧
    (∀ text : List Char, (_classify_by_keywords text).2 ≠ Severity.critical) := by
  constructor
  · intro resp cid fid src ci chunk f hf
    simp only [_process_response] at hf
    by_cases h1 : (pyStrip resp).isEmpty = true
    · rw [if_pos h1] at hf
      exact absurd hf (List.not_mem_nil f)
    · rw [if_neg h1] at hf
      by_cases h2 : ((_clean_response resp).isEmpty
          || decide ((_clean_response resp).length < 20)) = true
      · rw [if_pos h2] at hf
        exact absurd hf (List.not_mem_nil f)
      · rw [if_neg h2] at hf
        by_cases h3 : (noConcernPats.any
            (fun p => rsearch p (pyLower (_clean_response resp)))) = true
        · rw [if_pos h3] at hf
          exact absurd hf (List.not_mem_nil f)
        · rw [if_neg h3] at hf
          rw [List.mem_singleton] at hf
          subst hf
          refine ⟨rfl, ?_⟩
          dsimp only
          by_cases h : sevIdx (_classify_by_keywords
                (List.intercalate [' '] (chunk.map (fun m => m.text)))).2 >
              sevIdx (_classify_by_keywords (_clean_response resp)).2
          · rw [if_pos h]
            omega
          · rw [if_neg h]
            omega
  · intro text
    simp only [_classify_by_keywords]
    split_ifs <;> decide

def c2_msg : NormalizedMessage :=
  { sender := [], text := ("you owe me money").data, timestamp := [],
    source_file := [], line_number := 0 }

def c2_finding : Finding :=
  { case_id := "c", file_id := "f", category := FindingCategory.threat,
    severity := Severity.high, quote := ("you owe me money").data,
    explanation := ("threatens of violence.").data, source := "local",
    chunk_index := 0 }

theorem finding_classification_combination_witness :
    c2_finding ∈ _process_response (("threatens of violence.").data)
      "c" "f" "local" 0 [c2_msg] ∧
    c2_finding.category =
      (if (_classify_by_keywords
            (_clean_response (("threatens of violence.").data))).1 ≠
          FindingCategory.communication
       then (_classify_by_keywords
         (_clean_response (("threatens of violence.").data))).1
       else (_classify_by_keywords
         (List.intercalate [' '] ([c2_msg].map (fun m => m.text)))).1) ∧
    sevIdx c2_finding.severity =
      max (sevIdx (_classify_by_keywords
            (_clean_response (("threatens of violence.").data))).2)
        (sevIdx (_classify_by_keywords
          (List.intercalate [' '] ([c2_msg].map (fun m => m.text)))).2) ∧
    (_classify_by_keywords (("an imminent critical danger").data)).2 ≠
      Severity.critical := by
  have hmem : c2_finding ∈ _process_response (("threatens of violence.").data)
      "c" "f" "local" 0 [c2_msg] := by decide
  exact ⟨hmem,
    (finding_classification_combination.1 _ "c" "f" "local" 0 _ _ hmem).1,
    (finding_classification_combination.1 _ "c" "f" "local" 0 _ _ hmem).2,
    finding_classification_combination.2 _⟩

/-! ## STIM pillar scoring (report.py)

`raw_score` is a Python float; it is modelled with exact rationals
(`0.3 = 3/10`).  `round` is Python's round-half-to-even. -/

/-- Python `round(q)` (banker's rounding) on an exact rational. -/
def pyRound (q : ℚ) : Int :=
  let f := ⌊q⌋
  let r := q - f
  if r < 1/2 then f
  else if 1/2 < r then f + 1
  else if f % 2 = 0 then f else f + 1

/-- `_SEVERITY_WEIGHT` (report.py lines 88-93); `.get(severity, 2)` is total
on the four severities, so the default 2 is never taken. -/
def severityWeight : Severity → ℚ
  | .low => 1
  | .medium => 2
  | .high => 4
  | .critical => 6

/-- A STIM pillar: static configuration (report.py `STIM_PILLARS`). -/
structure PillarDef where
  name : String
  short : String
  description : String
  keywords : List (List RTok)
  categories : List FindingCategory

def vulnerabilityPillar : PillarDef :=
  { name := "Language-Based Vulnerability", short := "Vulnerability",
    description := "Grooming, flattery, false promises, emotional manipulation",
    keywords := [
      bwb ("trust me"), bwb ("only one"), bwb ("special"), bwb ("promise"),
      bw ("opportunit"), bw ("flatter"), bw ("groom"), bwb ("love"),
      bwb ("care about"), bwb ("chosen"), bwb ("deserve"),
      bwb ("beautiful"), bw ("talent"), bwb ("potential"),
      bwb ("mentorship"), bwb ("mentor"), bwb ("protect"),
      bwb ("stunning"), bw ("network"), bwb ("exclusive"),
      [.bnd, litP ("high"), .anyc, litP ("value"), .bnd],
      bwb ("career"), bw ("model"),
      bw ("vulnerab"), bw ("manipulat"), bw ("exploit")],
    categories := [FindingCategory.abuse, FindingCategory.pattern] }

def controlPillar : PillarDef :=
  { name := "Third-Party Control", short := "Control",
    description := "Instructions, demands, restricting movement, authority abuse",
    keywords := [
      bwb ("control"), bw ("demand"), bw ("instruct"), bwb ("order"),
      bwb ("must"), bwb ("have to"), bwb ("passport"), bwb ("travel"),
      bwb ("permission"), bw ("restrict"), bw ("cooperat"), bwb ("obey"),
      bwb ("do as"),
      [.bnd, litP ("follow"), .bnd, .anyStar, .bnd, litP ("instruct")],
      [.bnd, .lit (("don").data ++ [apos] ++ ("t question").data), .bnd],
      bwb ("confidential"), bwb ("secret"), bwb ("encrypted")],
    categories := [FindingCategory.threat, FindingCategory.abuse] }

def isolationPillar : PillarDef :=
  { name := "Psychological Isolation", short := "Isolation",
    description := "Cutting off support networks, enforcing secrecy, gaslighting",
    keywords := [
      bw ("isolat"),
      [.bnd, litP ("don"), .optc apos, litP ("t tell"), .bnd],
      bwb ("delete"), bw ("secre"),
      [.bnd, litP ("no one"), .bnd, .anyStar, .bnd, litP ("understand")],
      bwb ("only i"), bwb ("family"),
      bwb ("friends"), bwb ("alone"), bwb ("no contact"),
      bwb ("cut off"), bw ("gaslight"), bw ("roommate"),
      [.bnd, litP ("don"), .optc apos, litP ("t talk"), .bnd],
      bwb ("stay away"), bwb ("trust")],
    categories := [FindingCategory.abuse, FindingCategory.pattern] }

def financialPillar : PillarDef :=
  { name := "Financial Coercion", short := "Financial",
    description := "Debt traps, withholding pay, financial threats",
    keywords := [
      bwb ("debt"), bwb ("owe"), bwb ("money"), bwb ("pay"),
      bwb ("wire"), bw ("invest"), bw ("fund"), bwb ("fee"),
      bwb ("financial"), bw ("expens"), bwb ("cost"),
      bwb ("pocket"), bwb ("transfer"), bwb ("account"),
      bwb ("salary"), bw ("withhold"), bwb ("trap")],
    categories := [FindingCategory.scam, FindingCategory.threat] }

def STIM_PILLARS : List PillarDef :=
  [vulnerabilityPillar, controlPillar, isolationPillar, financialPillar]

/-- The accumulation loop of `_score_pillar`: raw weight sum and matched
findings.  A finding matches when its category is in the pillar's category
set or at least one keyword pattern fires on `quote + " " + explanation`
(case-insensitively). -/
def pillarRaw (pillar : PillarDef) : List Finding → ℚ × List Finding
  | [] => (0, [])
  | f :: rest =>
    let text := f.quote ++ [' '] ++ f.explanation
    let kw_hits :=
      (pillar.keywords.filter (fun p => rsearch p (pyLower text))).length
    let cat_match := f.category ∈ pillar.categories
    let acc := pillarRaw pillar rest
    if cat_match ∨ kw_hits > 0 then
      (acc.1 + severityWeight f.severity * (1 + (kw_hits : ℚ) * (3/10)),
        f :: acc.2)
    else acc

/-- `_score_pillar` (report.py lines 96-121): score is
`min(10, round(raw_score))`. -/
def _score_pillar (pillar : PillarDef) (findings : List Finding) :
    Int × List Finding :=
  let acc := pillarRaw pillar findings
  (min 10 (pyRound acc.1), acc.2)

/-- `_stim_risk_rating` (report.py lines 138-155). -/
def _stim_risk_rating (pillar_scores : List Int) : String × Int :=
  let total := pillar_scores.sum
  let pct := min 100 (pyRound ((total : ℚ) * 100 / 40))
  let label :=
    if pct ≥ 70 then "CRITICAL RISK"
    else if pct ≥ 50 then "HIGH RISK"
    else if pct ≥ 30 then "MEDIUM RISK"
    else "LOW RISK"
  (label, pct)

/-- `_pillar_rating` (report.py lines 158-165). -/
def _pillar_rating (score : Int) : String :=
  if score ≥ 7 then "CRITICAL"
  else if score ≥ 5 then "HIGH"
  else if score ≥ 3 then "MEDIUM"
  else "LOW"

theorem pyRound_nonneg (q : ℚ) (hq : 0 ≤ q) : 0 ≤ pyRound q := by
  have hf : (0 : Int) ≤ ⌊q⌋ := by
    rw [Int.le_floor]
    exact_mod_cast hq
  simp only [pyRound]
  split_ifs <;> omega

theorem pillarRaw_nonneg (pillar : PillarDef) (findings : List Finding) :
    0 ≤ (pillarRaw pillar findings).1 := by
  induction findings with
  | nil => simp [pillarRaw]
  | cons f rest ih =>
    simp only [pillarRaw]
    split_ifs with h
    · dsimp only
      have hw : 0 ≤ severityWeight f.severity := by
        cases f.severity <;> norm_num [severityWeight]
      have hhits : (0 : ℚ) ≤ 1 +
          (((pillar.keywords.filter (fun p => rsearch p
            (pyLower (f.quote ++ [' '] ++ f.explanation)))).length : ℚ)) *
            (3/10) := by
        positivity
      nlinarith
    · exact ih

/-- C4 -- Every pillar score lies in [0,10] for every finding list (even 20+
critical findings matching one pillar), and the STIM percentage computed
from the four pillar scores lies in [0,100] and equals
`round(total*100/40)` clamped from above. -/
theorem pillar_and_percentage_clamped :
    (∀ (pillar : PillarDef) (findings : List Finding),
      0 ≤ (_score_pillar pillar findings).1 ∧
      (_score_pillar pillar findings).1 ≤ 10) ∧
    (∀ findings : List Finding,
      0 ≤ (_stim_risk_rating (STIM_PILLARS.map
            (fun p => (_score_pillar p findings).1))).2 ∧
      (_stim_risk_rating (STIM_PILLARS.map
            (fun p => (_score_pillar p findings).1))).2 ≤ 100 ∧
      (_stim_risk_rating (STIM_PILLARS.map
            (fun p => (_score_pillar p findings).1))).2 =
        min 100 (pyRound (((STIM_PILLARS.map
            (fun p => (_score_pillar p findings).1)).sum : ℚ) * 100 / 40))) := by
  have hscore : ∀ (pillar : PillarDef) (findings : List Finding),
      0 ≤ (_score_pillar pillar findings).1 ∧
      (_score_pillar pillar findings).1 ≤ 10 := by
    intro pillar findings
    constructor
    · apply le_min
      · norm_num
      · exact pyRound_nonneg _ (pillarRaw_nonneg pillar findings)
    · exact min_le_left _ _
  refine ⟨hscore, ?_⟩
  intro findings
  have hsum : 0 ≤ (STIM_PILLARS.map
      (fun p => (_score_pillar p findings).1)).sum := by
    apply List.sum_nonneg
    intro x hx
    simp only [List.mem_map] at hx
    obtain ⟨p, _, rfl⟩ := hx
    exact (hscore p findings).1
  refine ⟨?_, ?_, rfl⟩
  · apply le_min
    · norm_num
    · apply pyRound_nonneg
      have : (0 : ℚ) ≤ ((STIM_PILLARS.map
          (fun p => (_score_pillar p findings).1)).sum : ℚ) := by
        exact_mod_cast hsum
      positivity
  · exact min_le_left _ _

/-! ## C10: statistics never divide by zero -/

/-- Python `round(q, 2)` on an exact rational. -/
def pyRound2 (q : ℚ) : ℚ := (pyRound (q * 100) : ℚ) / 100

/-- The statistics map of `_compute_stats` (report.py lines 216-233). -/
structure StatsR where
  total_findings : Nat
  local_findings : Nat
  local_ratio : ℚ
  severity_low : Nat
  severity_medium : Nat
  severity_high : Nat
  severity_critical : Nat
  category_threat : Nat
  category_scam : Nat
  category_abuse : Nat
  category_pattern : Nat
  category_timeline_event : Nat
  category_communication : Nat
  deriving DecidableEq, Repr

/-- `_compute_stats`: `local_ratio` is
`round(local_count / total, 2) if total else 1.0`. -/
def _compute_stats (findings : List Finding) : StatsR :=
  let total := findings.length
  let local_count := (findings.filter (fun f => f.source = "local")).length
  { total_findings := total
    local_findings := local_count
    local_ratio :=
      if total ≠ 0 then pyRound2 ((local_count : ℚ) / (total : ℚ)) else 1
    severity_low := (findings.filter (fun f => f.severity = Severity.low)).length
    severity_medium :=
      (findings.filter (fun f => f.severity = Severity.medium)).length
    severity_high :=
      (findings.filter (fun f => f.severity = Severity.high)).length
    severity_critical :=
      (findings.filter (fun f => f.severity = Severity.critical)).length
    category_threat :=
      (findings.filter (fun f => f.category = FindingCategory.threat)).length
    category_scam :=
      (findings.filter (fun f => f.category = FindingCategory.scam)).length
    category_abuse :=
      (findings.filter (fun f => f.category = FindingCategory.abuse)).length
    category_pattern :=
      (findings.filter (fun f => f.category = FindingCategory.pattern)).length
    category_timeline_event :=
      (findings.filter
        (fun f => f.category = FindingCategory.timeline_event)).length
    category_communication :=
      (findings.filter
        (fun f => f.category = FindingCategory.communication)).length }

/-- C10 -- The statistics computation never divides by zero: on an empty
finding list the local ratio defaults to 1.0, otherwise it is the local
count divided by the total, rounded to 2 decimal places. -/
theorem local_ratio_safe :
    ∀ findings : List Finding,
      (findings = [] → (_compute_stats findings).local_ratio = 1) ∧
      (findings ≠ [] → (_compute_stats findings).local_ratio =
        pyRound2 (((findings.filter (fun f => f.source = "local")).length : ℚ) /
          (findings.length : ℚ))) := by
  intro findings
  constructor
  · intro h
    subst h
    rfl
  · intro h
    have hlen : findings.length ≠ 0 := by
      simpa [List.length_eq_zero] using h
    simp only [_compute_stats]
    rw [if_pos hlen]

theorem pyRound_intCast (n : ℤ) : pyRound ((n : ℚ)) = n := by
  simp [pyRound, Int.floor_intCast]

def c10_findings : List Finding :=
  [mkSevFinding Severity.low,
   { mkSevFinding Severity.low with source := "cloud" }]

theorem local_ratio_safe_witness :
    (_compute_stats []).local_ratio = 1 ∧
    (_compute_stats c10_findings).local_ratio = 1/2 := by
  refine ⟨(local_ratio_safe []).1 rfl, ?_⟩
  rw [(local_ratio_safe c10_findings).2 (by decide)]
  have hl : ((c10_findings.filter (fun f => f.source = "local")).length) = 1 :=
    by decide
  have ht : c10_findings.length = 2 := by decide
  rw [hl, ht]
  have h50 : ((1 : ℕ) : ℚ) / ((2 : ℕ) : ℚ) * 100 = ((50 : ℤ) : ℚ) := by
    push_cast
    ring
  unfold pyRound2
  rw [h50, pyRound_intCast]
  norm_num

/-! ## C8: cleaning is the identity on already-clean text

On text with no reasoning markers, no markdown/heading/emoji noise and
already-collapsed whitespace (single plain spaces), every cleaning stage is
the identity and the sentence split/join reconstructs the text, so
`_clean_response` is the identity and in particular idempotent. -/

/-- No two adjacent whitespace characters. -/
def noTwoWs : List Char → Bool
  | [] => true
  | [_] => true
  | a :: b :: rest => (!(isPySpace a && isPySpace b)) && noTwoWs (b :: rest)

theorem noTwoWs_tail {a : Char} {rest : List Char}
    (h : noTwoWs (a :: rest) = true) : noTwoWs rest = true := by
  cases rest with
  | nil => rfl
  | cons b r =>
    simp only [noTwoWs, Bool.and_eq_true] at h
    exact h.2

theorem noTwoWs_head {a b : Char} {rest : List Char}
    (h : noTwoWs (a :: b :: rest) = true) (ha : isPySpace a = true) :
    isPySpace b = false := by
  simp only [noTwoWs, Bool.and_eq_true, Bool.not_eq_true',
    Bool.and_eq_false_iff] at h
  rcases h.1 with h1 | h1
  · rw [ha] at h1
    exact absurd h1 (by simp)
  · exact h1

theorem sub1F_id (n : Nat) (cs : List Char)
    (h : hasSubstr thinkOpen cs = false) : sub1F n cs = cs := by
  induction n generalizing cs with
  | zero => rfl
  | succ n ih =>
    cases cs with
    | nil => rfl
    | cons c rest =>
      simp only [hasSubstr, Bool.or_eq_false_iff] at h
      simp only [sub1F, h.1, Bool.false_eq_true, if_false]
      rw [ih rest h.2]

theorem truncAtThink_id (cs : List Char)
    (h : hasSubstr thinkOpen cs = false) : truncAtThink cs = cs := by
  induction cs with
  | nil => rfl
  | cons c rest ih =>
    simp only [hasSubstr, Bool.or_eq_false_iff] at h
    simp only [truncAtThink, h.1, Bool.false_eq_true, if_false]
    rw [ih h.2]

theorem strip_thinking_id (t : List Char) (h0 : pyStrip t = t)
    (h1 : hasSubstr thinkOpen t = false) : _strip_thinking t = t := by
  unfold _strip_thinking removeThinkPairs
  rw [sub1F_id _ _ h1, truncAtThink_id _ h1, h0]

theorem countLeading_eq_zero {p : Char → Bool} {c : Char} {rest : List Char}
    (h : p c = false) : countLeading p (c :: rest) = 0 := by
  simp [countLeading, h]

theorem headerSubF_id (n : Nat) (bol : Bool) (cs : List Char)
    (h : '#' ∉ cs) : headerSubF n bol cs = cs := by
  induction n generalizing cs bol with
  | zero => rfl
  | succ n ih =>
    cases cs with
    | nil => rfl
    | cons c rest =>
      have hc : c ≠ '#' := fun hh => h (by rw [hh]; exact List.mem_cons_self _ _)
      have hrest : '#' ∉ rest := fun hh => h (List.mem_cons_of_mem _ hh)
      have hcount : countLeading (fun x => x = '#') (c :: rest) = 0 :=
        countLeading_eq_zero (by simp [hc])
      simp only [headerSubF, hcount]
      norm_num
      rw [ih (c = '\n') rest hrest]

theorem emojiSub_id (cs : List Char)
    (h : ∀ c ∈ cs, isEmojiChar c = false) : emojiSub cs = cs := by
  unfold emojiSub
  rw [List.filter_eq_self]
  intro c hc
  simp [h c hc]

theorem boldSubF_id (n : Nat) (cs : List Char) (h : '*' ∉ cs) :
    boldSubF n cs = cs := by
  induction n generalizing cs with
  | zero => rfl
  | succ n ih =>
    cases cs with
    | nil => rfl
    | cons c rest =>
      have hc : c ≠ '*' := fun hh => h (by rw [hh]; exact List.mem_cons_self _ _)
      have hrest : '*' ∉ rest := fun hh => h (List.mem_cons_of_mem _ hh)
      simp only [boldSubF, if_neg hc]
      rw [ih rest hrest]

theorem hrSubGo_no_newline (cs lineRev : List Char) (h : '\n' ∉ cs) :
    hrSubGo lineRev cs = emitHrLine (cs.reverse ++ lineRev) := by
  induction cs generalizing lineRev with
  | nil => rfl
  | cons c rest ih =>
    have hc : c ≠ '\n' := fun hh => h (by rw [hh]; exact List.mem_cons_self _ _)
    have hrest : '\n' ∉ rest := fun hh => h (List.mem_cons_of_mem _ hh)
    simp only [hrSubGo, if_neg hc]
    rw [ih (c :: lineRev) hrest]
    congr 1
    simp

theorem hrSub_id (cs : List Char) (hnl : '\n' ∉ cs)
    (h : ¬(cs ≠ [] ∧ cs.all (fun c => c = '-') = true ∧ 3 ≤ cs.length)) :
    hrSub cs = cs := by
  unfold hrSub
  rw [hrSubGo_no_newline cs [] hnl, List.append_nil]
  unfold emitHrLine
  have hcond : ¬((!cs.reverse.isEmpty &&
      (cs.reverse.all (fun x => x = '-') && decide (3 ≤ cs.reverse.length)))
        = true) := by
    intro hbad
    rw [Bool.and_eq_true, Bool.and_eq_true] at hbad
    obtain ⟨hne, hall, hlen⟩ := hbad
    apply h
    refine ⟨?_, ?_, ?_⟩
    · intro hnil
      subst hnil
      simp at hne
    · simpa using hall
    · simpa using hlen
  rw [if_neg (by simpa [Bool.and_assoc] using hcond), List.reverse_reverse]

theorem nlCollapseGo_none_id (cs : List Char) (h : '\n' ∉ cs) :
    nlCollapseGo none cs = cs := by
  induction cs with
  | nil => rfl
  | cons c rest ih =>
    have hc : c ≠ '\n' := fun hh => h (by rw [hh]; exact List.mem_cons_self _ _)
    have hrest : '\n' ∉ rest := fun hh => h (List.mem_cons_of_mem _ hh)
    simp only [nlCollapseGo, if_neg hc]
    rw [ih hrest]

/-- Whether the head (if any) is a non-whitespace character. -/
def headNotWs : List Char → Bool
  | [] => true
  | c :: _ => !isPySpace c

theorem wsCollapseGo_id (cs : List Char) (h : noTwoWs cs = true) :
    wsCollapseGo none cs = cs ∧
    (∀ w, headNotWs cs = true → wsCollapseGo (some [w]) cs = w :: cs) := by
  induction cs with
  | nil =>
    refine ⟨rfl, fun w _ => ?_⟩
    simp [wsCollapseGo, emitWsRun]
  | cons c rest ih =>
    have hrest := noTwoWs_tail h
    obtain ⟨ih1, ih2⟩ := ih hrest
    constructor
    · by_cases hc : isPySpace c = true
      · have hhead : headNotWs rest = true := by
          cases rest with
          | nil => rfl
          | cons b r =>
            simp [headNotWs, noTwoWs_head h hc]
        simp only [wsCollapseGo, hc, if_true]
        exact ih2 c hhead
      · simp only [wsCollapseGo, hc, Bool.false_eq_true, if_false]
        rw [ih1]
    · intro w hw
      simp only [headNotWs, Bool.not_eq_true'] at hw
      simp only [wsCollapseGo, hw, Bool.false_eq_true, if_false]
      rw [ih1]
      simp [emitWsRun]

theorem wsCollapse_id (cs : List Char) (h : noTwoWs cs = true) :
    wsCollapse cs = cs :=
  (wsCollapseGo_id cs h).1

theorem splitSentF_ne_nil (n : Nat) (prevTerm : Bool) (accRev cs : List Char) :
    splitSentF n prevTerm accRev cs ≠ [] := by
  induction n generalizing prevTerm accRev cs with
  | zero => simp [splitSentF]
  | succ n ih =>
    cases cs with
    | nil => simp [splitSentF]
    | cons c rest =>
      simp only [splitSentF]
      by_cases hc : (isPySpace c && prevTerm) = true
      · simp [hc]
      · simp only [hc, Bool.false_eq_true, if_false]
        exact ih _ _ _

theorem intercalate_singleton (s a : List Char) :
    List.intercalate s [a] = a := by
  simp [List.intercalate]

theorem intercalate_cons_of_ne_nil (s a : List Char) (l : List (List Char))
    (h : l ≠ []) :
    List.intercalate s (a :: l) = a ++ s ++ List.intercalate s l := by
  cases l with
  | nil => exact absurd rfl h
  | cons b l' =>
    simp [List.intercalate, List.intersperse]

theorem dropWhile_of_headNotWs (cs : List Char) (h : headNotWs cs = true) :
    cs.dropWhile isPySpace = cs := by
  cases cs with
  | nil => rfl
  | cons c rest =>
    simp only [headNotWs, Bool.not_eq_true'] at h
    simp [List.dropWhile_cons, h]

theorem splitSentF_join (n : Nat) :
    ∀ (prevTerm : Bool) (accRev cs : List Char),
    cs.length < n → noTwoWs cs = true →
    (∀ c ∈ cs, isPySpace c = true → c = ' ') →
    List.intercalate [' '] (splitSentF n prevTerm accRev cs) =
      accRev.reverse ++ cs := by
  induction n with
  | zero =>
    intro _ _ cs hn
    omega
  | succ n ih =>
    intro prevTerm accRev cs hn h6 h7
    cases cs with
    | nil => simp [splitSentF, intercalate_singleton]
    | cons c rest =>
      have h6' : noTwoWs rest = true := noTwoWs_tail h6
      have h7' : ∀ x ∈ rest, isPySpace x = true → x = ' ' :=
        fun x hx => h7 x (List.mem_cons_of_mem _ hx)
      have hlen : rest.length < n := by
        simp only [List.length_cons] at hn
        omega
      simp only [splitSentF]
      by_cases hc : (isPySpace c && prevTerm) = true
      · have hcs : isPySpace c = true := by
          simp only [Bool.and_eq_true] at hc
          exact hc.1
        have hsp : c = ' ' := h7 c (List.mem_cons_self _ _) hcs
        have hhead : headNotWs rest = true := by
          cases rest with
          | nil => rfl
          | cons b r =>
            simp [headNotWs, noTwoWs_head h6 hcs]
        simp only [hc, if_true]
        rw [dropWhile_of_headNotWs rest hhead,
          intercalate_cons_of_ne_nil _ _ _ (splitSentF_ne_nil n false [] rest),
          ih false [] rest hlen h6' h7']
        simp [hsp]
      · simp only [hc, Bool.false_eq_true, if_false]
        rw [ih (isTermPunct c) (c :: accRev) rest hlen h6' h7']
        simp

theorem split_join_id (cs : List Char) (h6 : noTwoWs cs = true)
    (h7 : ∀ c ∈ cs, isPySpace c = true → c = ' ') :
    List.intercalate [' '] (splitSentences cs) = cs := by
  unfold splitSentences
  rw [splitSentF_join (cs.length + 1) false [] cs (by omega) h6 h7]
  rfl

/-- Under the cleanliness hypotheses every stage of `_clean_response` is the
identity, so cleaning leaves the text unchanged. -/
theorem clean_response_id (t : List Char)
    (h0 : pyStrip t = t)
    (h1 : hasSubstr thinkOpen t = false)
    (h2 : '#' ∉ t)
    (h3 : ∀ c ∈ t, isEmojiChar c = false)
    (h4 : '*' ∉ t)
    (h5 : ¬(t ≠ [] ∧ t.all (fun c => c = '-') = true ∧ 3 ≤ t.length))
    (h6 : noTwoWs t = true)
    (h7 : ∀ c ∈ t, isPySpace c = true → c = ' ')
    (h8 : degenGuard (splitSentences t) [] = splitSentences t)
    (h9 : t.length ≤ 500) :
    _clean_response t = t := by
  have hnl : '\n' ∉ t := by
    intro hmem
    have h := h7 '\n' hmem (by decide)
    exact absurd h (by decide)
  unfold _clean_response
  rw [strip_thinking_id t h0 h1]
  by_cases ht : t.isEmpty = true
  · rw [if_pos ht]
    rw [List.isEmpty_iff] at ht
    rw [ht]
  · rw [if_neg ht]
    unfold headerSub
    rw [headerSubF_id _ _ _ h2, emojiSub_id _ h3]
    unfold boldSub
    rw [boldSubF_id _ _ h4, hrSub_id _ hnl h5]
    unfold nlCollapse
    rw [nlCollapseGo_none_id _ hnl, wsCollapse_id _ h6]
    show List.take 500 (pyStrip
      (List.intercalate [' '] (degenGuard (splitSentences t) []))) = t
    rw [h8, split_join_id _ h6 h7, h0, List.take_of_length_le h9]

/-- C8 -- On already-clean text (no reasoning markers, no markdown, heading
or emoji noise, collapsed single-space whitespace, no 60-character sentence
prefix repeated 3 or more times) that fits the 500-character budget,
cleaning is idempotent: `clean (clean t) = clean t` (indeed `clean t = t`). -/
theorem clean_response_idempotent (t : List Char)
    (h0 : pyStrip t = t)
    (h1 : hasSubstr thinkOpen t = false)
    (h2 : '#' ∉ t)
    (h3 : ∀ c ∈ t, isEmojiChar c = false)
    (h4 : '*' ∉ t)
    (h5 : ¬(t ≠ [] ∧ t.all (fun c => c = '-') = true ∧ 3 ≤ t.length))
    (h6 : noTwoWs t = true)
    (h7 : ∀ c ∈ t, isPySpace c = true → c = ' ')
    (h8 : degenGuard (splitSentences t) [] = splitSentences t)
    (h9 : t.length ≤ 500) :
    _clean_response (_clean_response t) = _clean_response t := by
  rw [clean_response_id t h0 h1 h2 h3 h4 h5 h6 h7 h8 h9]
  exact clean_response_id t h0 h1 h2 h3 h4 h5 h6 h7 h8 h9

theorem clean_response_idempotent_witness :
    _clean_response (_clean_response
      (("This text is clean. It stays unchanged.").data)) =
    _clean_response (("This text is clean. It stays unchanged.").data) ∧
    _clean_response (("This text is clean. It stays unchanged.").data) =
      ("This text is clean. It stays unchanged.").data := by
  constructor
  · exact clean_response_idempotent _ (by decide) (by decide) (by decide)
      (by decide) (by decide) (by decide) (by decide) (by decide)
      (by decide) (by decide)
  · exact clean_response_id _ (by decide) (by decide) (by decide)
      (by decide) (by decide) (by decide) (by decide) (by decide)
      (by decide) (by decide)

end SovereigntyShield
